import Mathlib

/-!
Verification of the crabby shell-tool subsystem (command validator, executor,
and LLM-guided tool discovery) together with the schema-cache contract.

The Go source (src/internal/tools/shell.go, src/internal/config/tools_check.go,
and the schema-cache tests) is shallowly embedded below.  Go byte strings are
modelled as Lean `String`s (lists of characters); this is faithful for the
ASCII data all the claims are about.  Child-process execution and the LLM
oracle are external collaborators and are modelled as explicit function
parameters; each spawned process is recorded in a trace, mirroring the
`CommandObserver` hook that the Go code invokes once per spawned process.
-/

namespace Crabby

/-! ## String model helpers

Go's `strings` package functions, modelled over `String.data`. -/

/-- Character-list prefix test, modelling the byte-prefix semantics of
Go's `strings.HasPrefix`. -/
def listIsPre : List Char → List Char → Bool
  | [], _ => true
  | _ :: _, [] => false
  | a :: as, b :: bs => a == b && listIsPre as bs

/-- Character-list substring test, modelling Go's `strings.Contains`. -/
def listHasSub : List Char → List Char → Bool
  | [], pat => listIsPre pat []
  | s@(_ :: rest), pat => listIsPre pat s || listHasSub rest pat

/-- Go `strings.Contains(s, pat)`. -/
def containsSubstr (s pat : String) : Bool :=
  listHasSub s.data pat.data

/-- Go `strings.HasPrefix(s, pat)`. -/
def goStartsWith (s pat : String) : Bool :=
  listIsPre pat.data s.data

/-- Go `strings.HasSuffix(s, pat)`. -/
def goEndsWith (s pat : String) : Bool :=
  listIsPre pat.data.reverse s.data.reverse

/-- Go `unicode.IsSpace` restricted to the Latin-1 range (the only
characters the source data contains). -/
def goIsSpace (c : Char) : Bool :=
  c == ' ' || c == '\t' || c == '\n' || c == '\x0b' || c == '\x0c' || c == '\r'

/-- Accumulator-based splitter behind `goFields`: `acc` holds the current
token's characters in reverse. -/
def goFieldsAux : List Char → List Char → List String
  | [], acc => if acc.isEmpty then [] else [⟨acc.reverse⟩]
  | c :: cs, acc =>
    if goIsSpace c then
      if acc.isEmpty then goFieldsAux cs []
      else ⟨acc.reverse⟩ :: goFieldsAux cs []
    else goFieldsAux cs (c :: acc)

/-- Go `strings.Fields`: split around runs of whitespace, dropping empties. -/
def goFields (s : String) : List String :=
  goFieldsAux s.data []

/-- Go string slicing `s[:n]` (byte slice, modelled on characters). -/
def goTake (s : String) (n : Nat) : String :=
  ⟨s.data.take n⟩

/-- Go `strings.TrimSpace`. -/
def goTrim (s : String) : String :=
  ⟨((s.data.dropWhile goIsSpace).reverse.dropWhile goIsSpace).reverse⟩

/-- Go `strings.TrimSuffix(s, suf)` for a one-character suffix. -/
def goTrimSuffix1 (s suf : String) : String :=
  if goEndsWith s suf then ⟨s.data.take (s.data.length - suf.data.length)⟩ else s

/-- Go `strings.ToLower` (ASCII). -/
def goToLower (s : String) : String :=
  ⟨s.data.map Char.toLower⟩

/-! ### Lemmas about the string model -/

theorem dataAppend (a b : String) : (a ++ b).data = a.data ++ b.data := rfl

theorem strLength_append (a b : String) : (a ++ b).length = a.length + b.length := by
  show (a ++ b).data.length = a.data.length + b.data.length
  rw [dataAppend, List.length_append]

theorem strExt {a b : String} (h : a.data = b.data) : a = b := by
  cases a; cases b; cases h; rfl

theorem strAssoc (a b c : String) : (a ++ b) ++ c = a ++ (b ++ c) := by
  apply strExt
  rw [dataAppend, dataAppend, dataAppend, dataAppend, List.append_assoc]

theorem str_ne_empty_of_pos {s : String} (h : 0 < s.length) : s ≠ "" := by
  intro he
  rw [he] at h
  exact absurd h (by decide)

theorem listIsPre_refl (l : List Char) : listIsPre l l = true := by
  induction l with
  | nil => rfl
  | cons a as ih => simp [listIsPre, ih]

theorem listIsPre_append (p r : List Char) : listIsPre p (p ++ r) = true := by
  induction p with
  | nil => rfl
  | cons a as ih => simp [listIsPre, ih]

theorem listIsPre_extend {p s : List Char} (h : listIsPre p s = true) (r : List Char) :
    listIsPre p (s ++ r) = true := by
  induction p generalizing s with
  | nil => rfl
  | cons a as ih =>
    cases s with
    | nil => simp [listIsPre] at h
    | cons b bs =>
      simp only [listIsPre, Bool.and_eq_true] at h ⊢
      exact ⟨h.1, ih h.2⟩

theorem listHasSub_nil_pat (s : List Char) : listHasSub s [] = true := by
  induction s with
  | nil => rfl
  | cons a rest ih => simp [listHasSub, ih, listIsPre]

theorem listHasSub_of_pre {s pat : List Char} (h : listIsPre pat s = true) :
    listHasSub s pat = true := by
  cases s with
  | nil =>
    cases pat with
    | nil => rfl
    | cons a as => simp [listIsPre] at h
  | cons b bs => simp [listHasSub, h]

theorem listHasSub_append_right {s pat : List Char} (x : List Char)
    (h : listHasSub s pat = true) : listHasSub (x ++ s) pat = true := by
  induction x with
  | nil => simpa using h
  | cons a as ih => simp [listHasSub, ih]

theorem listHasSub_append_left {s pat : List Char} (x : List Char)
    (h : listHasSub s pat = true) : listHasSub (s ++ x) pat = true := by
  induction s with
  | nil =>
    have hp : pat = [] := by
      cases pat with
      | nil => rfl
      | cons a as => simp [listHasSub, listIsPre] at h
    rw [hp]
    exact listHasSub_nil_pat _
  | cons b bs ih =>
    simp only [listHasSub, Bool.or_eq_true] at h
    cases h with
    | inl hpre =>
      have hx : listIsPre pat ((b :: bs) ++ x) = true := listIsPre_extend hpre x
      rw [List.cons_append] at hx
      simp [listHasSub, hx]
    | inr hsub =>
      have := ih hsub
      simp [listHasSub, this]

theorem containsSubstr_append_left {x pat : String} (h : containsSubstr x pat = true)
    (y : String) : containsSubstr (x ++ y) pat = true := by
  unfold containsSubstr at h ⊢
  rw [dataAppend]
  exact listHasSub_append_left _ h

theorem containsSubstr_append_right {y pat : String} (h : containsSubstr y pat = true)
    (x : String) : containsSubstr (x ++ y) pat = true := by
  unfold containsSubstr at h ⊢
  rw [dataAppend]
  exact listHasSub_append_right _ h

theorem containsSubstr_self (s : String) : containsSubstr s s = true :=
  listHasSub_of_pre (listIsPre_refl _)

theorem containsSubstr_of_eq {s pre pat post : String} (h : s = pre ++ pat ++ post) :
    containsSubstr s pat = true := by
  subst h
  exact containsSubstr_append_left (containsSubstr_append_right (containsSubstr_self pat) pre) post

theorem goStartsWith_app (b x : String) : goStartsWith (b ++ x) b = true := by
  unfold goStartsWith
  rw [dataAppend]
  exact listIsPre_append _ _

/-! ## Data model

`Settings`, `ExternalTool` and `Settings.IsCommandAllowed` live in a config
file that is not part of the sources at hand; only their callers are.  They
are data holders and a membership test, modelled from the spec. -/

/-- Modelled from the spec: the static allowlist of bare command names held
by the shell tool settings (spec section 3, AllowlistEntry). -/
structure Settings where
  allowlist : List String

/-- Modelled from the spec: `Settings.IsCommandAllowed` — the base command
is accepted iff it is a member of the static allowlist (spec section 4.1
step 3). -/
def Settings.isCommandAllowed (s : Settings) (baseCmd : String) : Bool :=
  s.allowlist.contains baseCmd

/-- Modelled from the spec: `ExternalToolDescriptor` with its shell access
descriptor (spec section 3).  The environment template and check spec play
no role in the claims and are omitted. -/
structure ExternalTool where
  name : String
  description : String
  whenToUse : String
  accessType : String
  accessCommand : String

/-- Embeds `ShellTool` (shell.go).  The `llm` pointer is modelled by the flag
`hasLLM`; the oracle function itself is passed explicitly to the discovery
functions. -/
structure ShellTool where
  settings : Settings
  externalTools : List ExternalTool
  hasLLM : Bool
  userRequest : String

/-- Outcome of one child process: captured stdout/stderr, whether
`cmd.Run()` returned an error, and whether the context deadline fired. -/
structure ExecResult where
  stdout : String
  stderr : String
  runErr : Bool
  deadlineExceeded : Bool

/-- The operating system as an oracle: what happens when a command string is
spawned through `sh -c`. -/
abbrev ExecEnv := String → ExecResult

/-- Embeds `DiscoveryResponse` (shell.go): the parsed JSON answer of the LLM for
one discovery step.  The Go field `Continue` is a keyword in Lean and is
called `cont`. -/
structure DiscoveryResponse where
  command : String
  cont : Bool
  error : String

/-- The LLM collaborator composed with the JSON parsing of
`askNextDiscoveryStep`, as a function of the iteration index and the
`discoveredHelp` transcript (the data the prompt is built from):
either a parse/call error or a `DiscoveryResponse`. -/
abbrev Oracle := Nat → List String → Except String DiscoveryResponse

/-- The deadline of the discovery context: whether `ctx.Done()` has fired
when iteration `i` begins. -/
abbrev DeadlineState := Nat → Bool

/-- The `(string, error)` result of `ShellTool.Execute`, with the error
cases separated by provenance:
`failure` covers the `("", err)` returns (missing/bad parameter, validation
rejection), `discovery` is the discovery short-circuit (`err = nil`),
`timedOut` is the `ctx.Err() == DeadlineExceeded` return
("command timed out after 30s"), `execFailed` the wrapped `cmd.Run` error
("command failed: ..."), and `success` the `err = nil` return. -/
inductive ExecOutcome where
  | failure (msg : String)
  | discovery (text : String)
  | timedOut (output : String)
  | execFailed (output : String)
  | success (output : String)

/-- A tool argument value: a string, or some other JSON value
(`map[string]any` in Go). -/
inductive ArgVal where
  | str (s : String)
  | other

/-! ## Validator (shell.go, validateCommand) -/

/-- The fixed disallowed-substring list checked in order (shell.go line 240). -/
def dangerousPatterns : List String :=
  ["&&", "||", ";", "|", "\x60", "$(", "$\x7b", ">", "<"]

/-- Embeds `validateCommand` (shell.go lines 238-269). -/
def validateCommand (t : ShellTool) (command : String) : Except String Unit :=
  match dangerousPatterns.find? (fun p => containsSubstr command p) with
  | some p => Except.error ("command contains disallowed pattern: " ++ p)
  | none =>
    match goFields command with
    | [] => Except.error "empty command"
    | baseCmd :: _ =>
      if t.settings.isCommandAllowed baseCmd then Except.ok ()
      else if t.externalTools.any
          (fun ext => ext.accessType == "shell" && ext.accessCommand == baseCmd) then
        Except.ok ()
      else
        Except.error ("command not in allowlist: " ++ baseCmd ++ " (allowed: "
          ++ String.intercalate ", " t.settings.allowlist ++ ")")

/-- The well-known system command set (shell.go lines 28-44). -/
def wellKnownCommands : List String :=
  ["ls", "cat", "head", "tail", "grep",
   "find", "wc", "sort", "uniq", "cut",
   "echo", "printf", "date", "cal",
   "pwd", "cd", "mkdir", "rmdir", "rm",
   "cp", "mv", "touch", "chmod", "chown",
   "whoami", "id", "groups", "uname",
   "hostname", "uptime", "ps", "top", "kill",
   "df", "du", "free", "mount", "umount",
   "ping", "curl", "wget", "ssh", "scp",
   "tar", "zip", "unzip", "gzip", "gunzip",
   "sed", "awk", "tr", "diff", "patch",
   "man", "which", "whereis", "type",
   "env", "export", "set", "unset",
   "true", "false", "test", "sleep",
   "xargs", "tee", "less", "more"]

/-! ## Executor output combination (shell.go lines 199-206, 485-491, 557-564) -/

/-- The stdout/stderr combination performed after every spawned process:
stdout, then — only when stderr is non-empty — a newline separator if
stdout was non-empty, then stderr. -/
def combineOutput (stdout stderr : String) : String :=
  if stderr.length > 0 then
    (if stdout ≠ "" then stdout ++ "\n" else stdout) ++ stderr
  else stdout

/-! ## Discovery prompt construction (shell.go, askNextDiscoveryStep) -/

/-- Truncation of one previous output in the prompt context
(shell.go lines 429-433): at most 1500 characters plus a marker. -/
def truncateHelp (o : String) : String :=
  if o.length > 1500 then goTake o 1500 ++ "\n... (truncated)" else o

/-- The loop over `previousOutputs` building the prompt
(shell.go lines 423-435): entries at index 0..3 are rendered, and as soon
as index 4 is reached the remaining entries are replaced by a count. -/
def renderSteps : Nat → List String → String
  | _, [] => ""
  | i, o :: rest =>
    if i > 3 then
      "\n... and " ++ toString (rest.length + 1) ++ " more previous outputs\n"
    else
      "\n--- Step " ++ toString (i + 1) ++ " ---\n" ++ truncateHelp o ++ "\n"
        ++ renderSteps (i + 1) rest

/-- The user message handed to the LLM by `askNextDiscoveryStep`
(shell.go lines 416-437). -/
def discoveryUserMessage (userRequest : String) (previousOutputs : List String) : String :=
  let base := "User request: " ++ userRequest ++ "\n\n"
  if previousOutputs.isEmpty then
    base ++ "This is the first step. Start by getting the main help.\n"
  else
    base ++ "Previous discovery steps:\n" ++ renderSteps 0 previousOutputs
      ++ "\nWhat command should I run next? Remember to output ONLY JSON."

/-! ## Discovery loop (shell.go, runExternalToolDiscovery) -/

/-- Result of a discovery run: the transcript text, the trace of spawned
processes (command, isDiscovery) as reported to the `CommandObserver`, and
how many times the oracle was consulted. -/
structure DiscoveryRun where
  text : String
  trace : List (String × Bool)
  oracleCalls : Nat

/-- The iterative discovery loop body (shell.go lines 329-384), with the
remaining iteration budget as `fuel` (initially `maxIterations = 10`) and
the current iteration index `i` (initially 0). -/
def discoveryLoop (baseCmd : String) (oracle : Oracle) (deadl : DeadlineState)
    (env : ExecEnv) :
    Nat → Nat → List String → String → List (String × Bool) → DiscoveryRun
  | 0, _, _, acc, tr => ⟨acc, tr, 0⟩
  | fuel + 1, i, help, acc, tr =>
    if deadl i then
      ⟨acc ++ "\n(Discovery timeout reached)\n", tr, 0⟩
    else
      match oracle i help with
      | Except.error e =>
        ⟨acc ++ "\n## Discovery error: " ++ e ++ "\n", tr, 1⟩
      | Except.ok r =>
        if r.error ≠ "" then
          ⟨acc ++ "\n## LLM reported error: " ++ r.error ++ "\n", tr, 1⟩
        else if r.command = "" then
          ⟨acc ++ "\n## Discovery complete (no more commands to run)\n", tr, 1⟩
        else if goStartsWith r.command baseCmd = false then
          ⟨acc ++ "\n## Invalid command (must start with " ++ baseCmd ++ "): "
             ++ r.command ++ "\n", tr, 1⟩
        else
          let output := combineOutput (env r.command).stdout (env r.command).stderr
          let tr := tr ++ [(r.command, true)]
          let acc := acc ++ "\n## Step " ++ toString (i + 1) ++ ": Running \x60"
            ++ r.command ++ "\x60\n"
          let state :=
            if output = "" then (acc ++ "(No output)\n", help)
            else
              let o := if output.length > 2000 then goTake output 2000 ++ "\n... (truncated)"
                       else output
              (acc ++ "\x60\x60\x60\n" ++ o ++ "\n\x60\x60\x60\n",
               help ++ ["Command: " ++ r.command ++ "\nOutput:\n" ++ o])
          if r.cont = false then
            ⟨state.1 ++ "\n## Discovery complete\n", tr, 1⟩
          else
            let rest := discoveryLoop baseCmd oracle deadl env fuel (i + 1) state.2 state.1 tr
            ⟨rest.text, rest.trace, rest.oracleCalls + 1⟩

/-! ## Simple discovery fallback (shell.go, runSimpleDiscovery and helpers) -/

/-- The help indicator phrases of `looksLikeHelp` (shell.go lines 584-590). -/
def helpIndicators : List String :=
  ["usage:", "usage ", "options:", "commands:", "arguments:",
   "flags:", "subcommands:", "available commands",
   "--help", "-h,", "description:", "synopsis:",
   "positional arguments", "optional arguments",
   "examples:", "example:", "run \x27", "see \x27"]

/-- Embeds `looksLikeHelp` (shell.go lines 576-601). -/
def looksLikeHelp (output : String) : Bool :=
  if output.length < 30 then false
  else
    let lower := goToLower output
    let hits := helpIndicators.countP (fun ind => containsSubstr lower ind)
    hits ≥ 1 || output.length > 200

/-- The command string assembled for one help probe
(shell.go lines 534-543). -/
def helpCmdStr (baseCmd subcommand pattern : String) : String :=
  if subcommand ≠ "" then
    if pattern = "" then baseCmd ++ " " ++ subcommand
    else baseCmd ++ " " ++ subcommand ++ " " ++ pattern
  else baseCmd ++ " " ++ pattern

/-- The probe loop of `fetchSingleHelp` (shell.go lines 533-570): try each
pattern in order, spawning the probe (observer notified with
isDiscovery = true) and returning the first output that looks like help. -/
def fetchHelpLoop (env : ExecEnv) (baseCmd subcommand : String) :
    List String → String × List (String × Bool)
  | [] => ("", [])
  | pattern :: rest =>
    let cmdStr := helpCmdStr baseCmd subcommand pattern
    let output := combineOutput (env cmdStr).stdout (env cmdStr).stderr
    if looksLikeHelp output then (output, [(cmdStr, true)])
    else
      let r := fetchHelpLoop env baseCmd subcommand rest
      (r.1, (cmdStr, true) :: r.2)

/-- Embeds `fetchSingleHelp` (shell.go lines 520-573). -/
def fetchSingleHelp (env : ExecEnv) (baseCmd subcommand : String) :
    String × List (String × Bool) :=
  let patterns :=
    if subcommand ≠ "" then ["--help", "-h", "help", "-help", ""]
    else ["--help", "-h", "help", "-help"]
  fetchHelpLoop env baseCmd subcommand patterns

/-- Embeds `isValidSubcommand` (shell.go lines 653-664). -/
def isValidSubcommand (s : String) : Bool :=
  s.data.all (fun r =>
    ('a' ≤ r && r ≤ 'z') || ('A' ≤ r && r ≤ 'Z') || ('0' ≤ r && r ≤ '9')
      || r == '-' || r == '_')

/-- The line scan of `parseSubcommands` (shell.go lines 604-650), with the
`inCommandsSection` flag threaded explicitly. -/
def parseSubcommandsAux : Bool → List String → List String
  | _, [] => []
  | inSec, line :: rest =>
    let lineLower := goToLower line
    if containsSubstr lineLower "commands:" || containsSubstr lineLower "available commands"
        || containsSubstr lineLower "subcommands:" then
      parseSubcommandsAux true rest
    else if inSec then
      let trimmed := goTrim line
      if trimmed = "" then parseSubcommandsAux true rest
      else if goEndsWith trimmed ":" && !containsSubstr trimmed " " then
        parseSubcommandsAux false rest
      else
        match goFields trimmed with
        | [] => parseSubcommandsAux true rest
        | first :: _ =>
          let cmd := goTrimSuffix1 first ","
          if !goStartsWith cmd "-" && cmd.length > 1 && cmd.length < 30
              && isValidSubcommand cmd then
            cmd :: parseSubcommandsAux true rest
          else parseSubcommandsAux true rest
    else parseSubcommandsAux false rest

/-- Embeds `parseSubcommands` (shell.go lines 604-650). -/
def parseSubcommands (helpText : String) : List String :=
  parseSubcommandsAux false (helpText.splitOn "\n")

/-- Go's `%v` rendering of a string slice, used for the subcommand list. -/
def formatStrSlice (l : List String) : String :=
  "[" ++ String.intercalate " " l ++ "]"

/-- Embeds `runSimpleDiscovery` (shell.go lines 497-518), taking the accumulated
header text and returning the final text and the spawn trace. -/
def runSimpleDiscovery (env : ExecEnv) (tool : ExternalTool) (acc : String) :
    String × List (String × Bool) :=
  let baseCmd := tool.accessCommand
  let acc := acc ++ "## Main command help\n"
  let fh := fetchSingleHelp env baseCmd ""
  if fh.1 = "" then
    (acc ++ "Could not fetch help for main command.\n", fh.2)
  else
    let acc := acc ++ fh.1 ++ "\n"
    let subs := parseSubcommands fh.1
    let acc :=
      if subs.length > 0 then
        acc ++ "\n## Available subcommands: " ++ formatStrSlice subs ++ "\n"
          ++ "Run \x60<command> <subcommand> --help\x60 to learn more about each.\n"
      else acc
    (acc ++ "\n=== Discovery complete. ===\n", fh.2)

/-! ## Top-level discovery (shell.go, runExternalToolDiscovery and
runToolDiscoveryIfNeeded) -/

/-- Embeds `runExternalToolDiscovery` (shell.go lines 307-395). -/
def runExternalToolDiscovery (t : ShellTool) (oracle : Oracle) (deadl : DeadlineState)
    (env : ExecEnv) (tool : ExternalTool) : DiscoveryRun :=
  let baseCmd := tool.accessCommand
  let acc := "=== Tool Discovery: " ++ baseCmd ++ " ===\n\n"
    ++ "**Description:** " ++ tool.description ++ "\n"
  let acc := if tool.whenToUse ≠ "" then
      acc ++ "**When to use:** " ++ tool.whenToUse ++ "\n\n"
    else acc
  if t.hasLLM = false ∨ t.userRequest = "" then
    let r := runSimpleDiscovery env tool acc
    ⟨r.1, r.2, 0⟩
  else
    let run := discoveryLoop baseCmd oracle deadl env 10 0 [] acc []
    let output := run.text ++ "\n=== Use the discovered information above to construct your command. ===\n"
    let output :=
      if output.length > 15000 then goTake output 15000 ++ "\n... (discovery output truncated)"
      else output
    ⟨output, run.trace, run.oracleCalls⟩

/-- Result of `runToolDiscoveryIfNeeded`: the discovery text and the
is-external-tool flag returned in Go, plus the spawn trace and oracle call
count of the run. -/
structure DiscoveryCheck where
  text : String
  isExternal : Bool
  trace : List (String × Bool)
  oracleCalls : Nat

/-- Embeds `runToolDiscoveryIfNeeded` (shell.go lines 273-296). -/
def runToolDiscoveryIfNeeded (t : ShellTool) (oracle : Oracle) (deadl : DeadlineState)
    (env : ExecEnv) (command : String) : DiscoveryCheck :=
  match goFields command with
  | [] => ⟨"", false, [], 0⟩
  | baseCmd :: _ =>
    if wellKnownCommands.contains baseCmd then ⟨"", false, [], 0⟩
    else
      match t.externalTools.find?
          (fun ext => ext.accessType == "shell" && ext.accessCommand == baseCmd) with
      | some ext =>
        let run := runExternalToolDiscovery t oracle deadl env ext
        ⟨run.text, true, run.trace, run.oracleCalls⟩
      | none => ⟨"", false, [], 0⟩

/-- The instruction appended to first-use discovery output
(shell.go lines 171-174). -/
def discoveryInstruction : String :=
  "\n\n=== IMPORTANT: Tool discovery complete. Do NOT re-run the same command. ===\n"
    ++ "Use the discovered information above to construct a VALID command.\n"
    ++ "Check the available subcommands and their options before proceeding."

/-- The tail of `ShellTool.Execute` after validation has succeeded
(shell.go lines 166-216): discovery short-circuit, observer notification
for the real execution, then the spawn with output combination and the
timeout / failure / success distinction. -/
def shellExecuteValidated (t : ShellTool) (oracle : Oracle) (deadl : DeadlineState)
    (env : ExecEnv) (command : String) : ExecOutcome × List (String × Bool) :=
  let rd := runToolDiscoveryIfNeeded t oracle deadl env command
  if rd.isExternal = true ∧ rd.text ≠ "" then
    (ExecOutcome.discovery (rd.text ++ discoveryInstruction), rd.trace)
  else
    let tr := rd.trace ++ [(command, false)]
    let r := env command
    let output := combineOutput r.stdout r.stderr
    if r.deadlineExceeded then (ExecOutcome.timedOut output, tr)
    else if r.runErr then (ExecOutcome.execFailed output, tr)
    else (ExecOutcome.success output, tr)

/-- Embeds `ShellTool.Execute` (shell.go lines 150-217): parameter extraction,
validation, discovery short-circuit, then execution.  The second component
is the trace of every spawned child process (command, isDiscovery), in
spawn order. -/
def shellExecute (t : ShellTool) (oracle : Oracle) (deadl : DeadlineState)
    (env : ExecEnv) (args : List (String × ArgVal)) :
    ExecOutcome × List (String × Bool) :=
  match args.lookup "command" with
  | none => (ExecOutcome.failure "missing required parameter: command", [])
  | some ArgVal.other => (ExecOutcome.failure "command must be a string", [])
  | some (ArgVal.str command) =>
    match validateCommand t command with
    | Except.error e => (ExecOutcome.failure e, [])
    | Except.ok _ => shellExecuteValidated t oracle deadl env command

/-! ## Schema cache

The `SchemaCache` implementation itself is not among the sources at hand;
only its test file is.  The definitions below are therefore modelled from
the spec (section 4.5) and exercised against the behaviour the tests pin
down. -/

/-- Modelled from the spec: the allowed filename character class
`[A-Za-z0-9_-]` of the sanitizer (spec section 4.5). -/
def isAllowedFilenameChar (c : Char) : Bool :=
  ('a' ≤ c && c ≤ 'z') || ('A' ≤ c && c ≤ 'Z') || ('0' ≤ c && c ≤ '9')
    || c == '_' || c == '-'

/-- Modelled from the spec: one character of `sanitizeFilename` — characters
outside `[A-Za-z0-9_-]` become `_`, others are unchanged. -/
def sanitizeChar (c : Char) : Char :=
  if isAllowedFilenameChar c then c else '_'

/-- Modelled from the spec: `sanitizeFilename` (spec section 4.5, exercised
by TestSanitizeFilename), applied character-wise. -/
def sanitizeFilename (s : String) : String :=
  ⟨s.data.map sanitizeChar⟩

/-- Modelled from the spec: `CachedSchema` — the persisted record with its
command, structured schema document (kept abstract as its serialized text),
help text and generation timestamp in seconds. -/
structure CachedSchema where
  command : String
  schemaDoc : String
  helpText : String
  generatedAt : Int

/-- Modelled from the spec: the content of one cache file — a parseable
record or unparseable bytes. -/
inductive CacheFile where
  | valid (s : CachedSchema)
  | unparseable

/-- Modelled from the spec: the cache directory as an association from
file names to file contents; an absent key is an absent file.  A write
prepends, and reads take the first match (last write wins). -/
abbrev CacheFS := List (String × CacheFile)

/-- The 7-day TTL of `Get`, in seconds. -/
def cacheTTLSeconds : Int := 7 * 24 * 60 * 60

/-- The on-disk key of a command (spec section 4.5). -/
def cacheFileName (command : String) : String :=
  sanitizeFilename command ++ ".json"

/-- Modelled from the spec: `SchemaCache.Get` — reads the file if present;
not found when the file is absent, unparseable, or
`now - generatedAt > 7 days`; expired entries are not deleted (the read is
effect-free). -/
def cacheGet (fs : CacheFS) (now : Int) (command : String) : Option CachedSchema :=
  match List.lookup (cacheFileName command) fs with
  | none => none
  | some CacheFile.unparseable => none
  | some (CacheFile.valid s) =>
    if now - s.generatedAt > cacheTTLSeconds then none else some s

/-- Modelled from the spec: `SchemaCache.Set` — stamps `generatedAt = now`
and writes the record to `<sanitized(command)>.json`. -/
def cacheSet (fs : CacheFS) (now : Int) (s : CachedSchema) : CacheFS :=
  (cacheFileName s.command, CacheFile.valid { s with generatedAt := now }) :: fs

/-! ## Helper lemmas about the embedded operations -/

theorem boolNeTrue {b : Bool} (h : b = false) : ¬(b = true) := by
  intro hc
  rw [h] at hc
  exact Bool.noConfusion hc

theorem strLen_le_append (a b : String) : a.length ≤ (a ++ b).length := by
  rw [strLength_append]
  exact Nat.le_add_right _ _

theorem strLen_le_append_right (a b : String) : b.length ≤ (a ++ b).length := by
  rw [strLength_append]
  exact Nat.le_add_left _ _

theorem str_pos_of_ne {s : String} (h : s ≠ "") : 0 < s.length := by
  cases s with
  | mk data =>
    cases data with
    | nil => exact absurd rfl h
    | cons c cs => simp [String.length]

/-- Every help-probe command string begins with the base command. -/
theorem helpCmdStr_starts (b sub pat : String) : goStartsWith (helpCmdStr b sub pat) b = true := by
  unfold helpCmdStr
  split
  · split
    · simp [strAssoc, goStartsWith_app]
    · simp [strAssoc, goStartsWith_app]
  · simp [strAssoc, goStartsWith_app]

/-- Every process spawned by the help-probe loop is a discovery spawn whose
command starts with the base command. -/
theorem fetchHelpLoop_trace (env : ExecEnv) (b sub : String) :
    ∀ pats, ∀ p ∈ (fetchHelpLoop env b sub pats).2,
      p.2 = true ∧ goStartsWith p.1 b = true := by
  intro pats
  induction pats with
  | nil => intro p hp; simp [fetchHelpLoop] at hp
  | cons pat rest ih =>
    intro p hp
    simp only [fetchHelpLoop] at hp
    split at hp
    · simp only [List.mem_singleton] at hp
      subst hp
      exact ⟨rfl, helpCmdStr_starts b sub pat⟩
    · simp only [List.mem_cons] at hp
      cases hp with
      | inl h => subst h; exact ⟨rfl, helpCmdStr_starts b sub pat⟩
      | inr h => exact ih p h

/-- The spawn trace of simple discovery is exactly that of its main help
probe. -/
theorem runSimpleDiscovery_snd (env : ExecEnv) (tool : ExternalTool) (acc : String) :
    (runSimpleDiscovery env tool acc).2 = (fetchSingleHelp env tool.accessCommand "").2 := by
  unfold runSimpleDiscovery
  by_cases h : (fetchSingleHelp env tool.accessCommand "").1 = "" <;> simp [h]

/-- Every process spawned by simple discovery is a discovery spawn whose
command starts with the tool's access command. -/
theorem runSimpleDiscovery_trace (env : ExecEnv) (tool : ExternalTool) (acc : String) :
    ∀ p ∈ (runSimpleDiscovery env tool acc).2,
      p.2 = true ∧ goStartsWith p.1 tool.accessCommand = true := by
  intro p hp
  rw [runSimpleDiscovery_snd] at hp
  exact fetchHelpLoop_trace env tool.accessCommand "" _ p hp

/-- Every process the iterative discovery loop adds to the trace is a
discovery spawn whose command starts (character-wise) with the base
command: the only spawn site sits behind the prefix guard. -/
theorem discoveryLoop_trace (baseCmd : String) (oracle : Oracle) (deadl : DeadlineState)
    (env : ExecEnv) :
    ∀ fuel i help acc tr,
      (∀ p ∈ tr, p.2 = true ∧ goStartsWith p.1 baseCmd = true) →
      ∀ p ∈ (discoveryLoop baseCmd oracle deadl env fuel i help acc tr).trace,
        p.2 = true ∧ goStartsWith p.1 baseCmd = true := by
  intro fuel
  induction fuel with
  | zero => intro i help acc tr htr p hp; exact htr p hp
  | succ fuel ih =>
    intro i help acc tr htr p hp
    simp only [discoveryLoop] at hp
    split at hp
    · exact htr p hp
    · split at hp
      · exact htr p hp
      · next r _ =>
        split at hp
        · exact htr p hp
        · split at hp
          · exact htr p hp
          · split at hp
            · exact htr p hp
            · next hpre =>
              have hpt : goStartsWith r.command baseCmd = true := by
                revert hpre
                cases goStartsWith r.command baseCmd <;> simp
              have htr' : ∀ q ∈ tr ++ [(r.command, true)],
                  q.2 = true ∧ goStartsWith q.1 baseCmd = true := by
                intro q hq
                rcases List.mem_append.mp hq with h | h
                · exact htr q h
                · rw [List.mem_singleton] at h
                  subst h
                  exact ⟨rfl, hpt⟩
              split at hp
              · exact htr' p hp
              · exact ih _ _ _ _ htr' p hp

/-- Every process spawned by an external-tool discovery run is a discovery
spawn whose command starts with the tool's access command. -/
theorem runExternalToolDiscovery_trace (t : ShellTool) (oracle : Oracle)
    (deadl : DeadlineState) (env : ExecEnv) (tool : ExternalTool) :
    ∀ p ∈ (runExternalToolDiscovery t oracle deadl env tool).trace,
      p.2 = true ∧ goStartsWith p.1 tool.accessCommand = true := by
  intro p hp
  simp only [runExternalToolDiscovery] at hp
  split at hp
  · exact runSimpleDiscovery_trace env tool _ p hp
  · exact discoveryLoop_trace tool.accessCommand oracle deadl env 10 0 [] _ []
      (by intro q hq; simp at hq) p hp

/-- Every process spawned through `runToolDiscoveryIfNeeded` is a discovery
spawn whose command starts with the access command of some configured
shell-type external tool. -/
theorem runToolDiscoveryIfNeeded_trace (t : ShellTool) (oracle : Oracle)
    (deadl : DeadlineState) (env : ExecEnv) (cmd : String) :
    ∀ p ∈ (runToolDiscoveryIfNeeded t oracle deadl env cmd).trace,
      p.2 = true ∧ ∃ ext, ext ∈ t.externalTools ∧ ext.accessType = "shell"
        ∧ goStartsWith p.1 ext.accessCommand = true := by
  intro p hp
  simp only [runToolDiscoveryIfNeeded] at hp
  split at hp
  · simp at hp
  · split at hp
    · simp at hp
    · split at hp
      · next ext hfind =>
        have hmem := List.mem_of_find?_eq_some hfind
        have hpred := List.find?_some hfind
        simp only [Bool.and_eq_true, beq_iff_eq] at hpred
        have h := runExternalToolDiscovery_trace t oracle deadl env ext p hp
        exact ⟨h.1, ext, hmem, hpred.1, h.2⟩
      · simp at hp

/-- Proves that `Execute` reaches the post-validation stage exactly when the `command`
argument is a string and validation succeeds. -/
theorem shellExecute_validated (t : ShellTool) (oracle : Oracle) (deadl : DeadlineState)
    (env : ExecEnv) (args : List (String × ArgVal)) (cmd : String)
    (hargs : args.lookup "command" = some (ArgVal.str cmd))
    (hval : validateCommand t cmd = Except.ok ()) :
    shellExecute t oracle deadl env args = shellExecuteValidated t oracle deadl env cmd := by
  unfold shellExecute
  rw [hargs]
  dsimp only
  rw [hval]

/-- Simple discovery always produces non-empty text (both exits append a
closing line). -/
theorem runSimpleDiscovery_text_pos (env : ExecEnv) (tool : ExternalTool) (acc : String) :
    0 < (runSimpleDiscovery env tool acc).1.length := by
  unfold runSimpleDiscovery
  dsimp only
  split
  · have h : 0 < ("Could not fetch help for main command.\n" : String).length := by decide
    simp only [strLength_append]
    omega
  · have h : 0 < ("\n=== Discovery complete. ===\n" : String).length := by decide
    dsimp only
    simp only [strLength_append]
    omega

/-- A discovery run always returns non-empty text: the transcript starts
with a header and every exit path appends a closing line or a truncation
marker. -/
theorem runExternalToolDiscovery_text_ne (t : ShellTool) (oracle : Oracle)
    (deadl : DeadlineState) (env : ExecEnv) (tool : ExternalTool) :
    (runExternalToolDiscovery t oracle deadl env tool).text ≠ "" := by
  apply str_ne_empty_of_pos
  simp only [runExternalToolDiscovery]
  split
  · exact runSimpleDiscovery_text_pos env tool _
  · dsimp only
    have h1 : 0 < ("\n... (discovery output truncated)" : String).length := by decide
    have h2 : 0 <
        ("\n=== Use the discovered information above to construct your command. ===\n" : String).length := by
      decide
    split <;> split <;> (simp only [strLength_append]; omega)

/-! ## Concrete fixtures used by witnesses and counterexamples -/

def toolLs : ShellTool := ⟨⟨["ls"]⟩, [], false, ""⟩

def jqExt : ExternalTool := ⟨"jq-tool", "json processor", "", "shell", "jq"⟩

def tJq : ShellTool := ⟨⟨["ls"]⟩, [jqExt], true, "r"⟩

def gitExt : ExternalTool := ⟨"git-tool", "version control", "", "shell", "git"⟩

def tGit : ShellTool := ⟨⟨["ls"]⟩, [gitExt], true, "r"⟩

def noOracle : Oracle := fun _ _ => Except.error "unavailable"

def oracleJq : Oracle := fun _ _ => Except.ok ⟨"jq . | cat", false, ""⟩

def oracleGitk : Oracle := fun _ _ => Except.ok ⟨"gitk --help", false, ""⟩

def noDeadline : DeadlineState := fun _ => false

def envOut : ExecEnv := fun _ => ⟨"out", "", false, false⟩

def envTimedOut : ExecEnv := fun _ => ⟨"partial out", "", true, true⟩

def envErrOnly : ExecEnv := fun _ => ⟨"", "E", false, false⟩

/-! ## Claim theorems -/

/-- C3: `validateCommand` rejects every command containing a disallowed
substring, with an error naming the offending pattern; rejects a command
with no whitespace-separated tokens as an empty command; and among
pattern-free commands accepts exactly those whose first token is in the
static allowlist or equals a configured shell-type external tool's access
command, rejecting all others with a reason string. -/
theorem C3_validateCommand (t : ShellTool) (cmd : String) :
    (∀ p₀, p₀ ∈ dangerousPatterns → containsSubstr cmd p₀ = true →
       ∃ p, p ∈ dangerousPatterns ∧ containsSubstr cmd p = true ∧
         validateCommand t cmd
           = Except.error ("command contains disallowed pattern: " ++ p)) ∧
    ((∀ p ∈ dangerousPatterns, containsSubstr cmd p = false) → goFields cmd = [] →
       validateCommand t cmd = Except.error "empty command") ∧
    (∀ b bs, (∀ p ∈ dangerousPatterns, containsSubstr cmd p = false) →
       goFields cmd = b :: bs →
       ((validateCommand t cmd = Except.ok ()) ↔
          (t.settings.allowlist.contains b = true ∨
           t.externalTools.any
             (fun ext => ext.accessType == "shell" && ext.accessCommand == b) = true)) ∧
       (t.settings.allowlist.contains b = false →
        t.externalTools.any
          (fun ext => ext.accessType == "shell" && ext.accessCommand == b) = false →
          validateCommand t cmd = Except.error ("command not in allowlist: " ++ b
            ++ " (allowed: " ++ String.intercalate ", " t.settings.allowlist ++ ")"))) := by
  refine ⟨?_, ?_, ?_⟩
  · intro p₀ hmem hcon
    cases hfind : dangerousPatterns.find? (fun p => containsSubstr cmd p) with
    | none =>
      exact absurd hcon (by simpa using List.find?_eq_none.mp hfind p₀ hmem)
    | some p =>
      refine ⟨p, List.mem_of_find?_eq_some hfind, List.find?_some hfind, ?_⟩
      unfold validateCommand
      rw [hfind]
  · intro hnone hfield
    have hf : dangerousPatterns.find? (fun p => containsSubstr cmd p) = none :=
      List.find?_eq_none.mpr (fun p hp => by simp [hnone p hp])
    unfold validateCommand
    rw [hf]
    dsimp only
    rw [hfield]
  · intro b bs hnone hfield
    have hf : dangerousPatterns.find? (fun p => containsSubstr cmd p) = none :=
      List.find?_eq_none.mpr (fun p hp => by simp [hnone p hp])
    have hv : validateCommand t cmd =
        (if t.settings.isCommandAllowed b then Except.ok ()
         else if t.externalTools.any
             (fun ext => ext.accessType == "shell" && ext.accessCommand == b) then
           Except.ok ()
         else
           Except.error ("command not in allowlist: " ++ b ++ " (allowed: "
             ++ String.intercalate ", " t.settings.allowlist ++ ")")) := by
      unfold validateCommand
      rw [hf]
      dsimp only
      rw [hfield]
    constructor
    · constructor
      · intro hok
        rw [hv] at hok
        by_cases h1 : t.settings.allowlist.contains b = true
        · exact Or.inl h1
        · rw [if_neg (show ¬(t.settings.isCommandAllowed b = true) from h1)] at hok
          by_cases h2 : t.externalTools.any
              (fun ext => ext.accessType == "shell" && ext.accessCommand == b) = true
          · exact Or.inr h2
          · rw [if_neg h2] at hok
            exact absurd hok (by simp)
      · intro hor
        rw [hv]
        rcases hor with h1 | h2
        · rw [if_pos (show t.settings.isCommandAllowed b = true from h1)]
        · by_cases h1 : t.settings.allowlist.contains b = true
          · rw [if_pos (show t.settings.isCommandAllowed b = true from h1)]
          · rw [if_neg (show ¬(t.settings.isCommandAllowed b = true) from h1), if_pos h2]
    · intro h1 h2
      rw [hv, if_neg (boolNeTrue (show t.settings.isCommandAllowed b = false from h1)),
        if_neg (boolNeTrue h2)]

/-- C3 witness: the parts of the theorem evaluated at concrete inputs over
the fixture allowlist `["ls"]`. -/
theorem C3_witness :
    (∃ p, p ∈ dangerousPatterns ∧ containsSubstr "a && b" p = true ∧
       validateCommand toolLs "a && b"
         = Except.error ("command contains disallowed pattern: " ++ p)) ∧
    validateCommand toolLs " " = Except.error "empty command" ∧
    validateCommand toolLs "ls -la" = Except.ok () ∧
    validateCommand toolLs "rm x"
      = Except.error "command not in allowlist: rm (allowed: ls)" :=
  ⟨(C3_validateCommand toolLs "a && b").1 "&&" (by decide) (by decide),
   (C3_validateCommand toolLs " ").2.1 (by decide) rfl,
   ((C3_validateCommand toolLs "ls -la").2.2 "ls" ["-la"] (by decide) rfl).1.mpr
     (Or.inl rfl),
   ((C3_validateCommand toolLs "rm x").2.2 "rm" ["x"] (by decide) rfl).2 rfl rfl⟩

/-- C4: if the oracle proposes a command that does not start with the target
tool's base command, the discovery loop stops immediately with a diagnostic
naming the invalid command; the trace is unchanged (the proposed command is
not executed) and exactly this one oracle consultation happens (no further
oracle calls). -/
theorem C4_protocolViolation (baseCmd : String) (oracle : Oracle) (deadl : DeadlineState)
    (env : ExecEnv) (fuel i : Nat) (help : List String) (acc : String)
    (tr : List (String × Bool)) (r : DiscoveryResponse)
    (hdl : deadl i = false)
    (ho : oracle i help = Except.ok r)
    (herr : r.error = "")
    (hcmd : r.command ≠ "")
    (hpre : goStartsWith r.command baseCmd = false) :
    discoveryLoop baseCmd oracle deadl env (fuel + 1) i help acc tr =
      ⟨acc ++ "\n## Invalid command (must start with " ++ baseCmd ++ "): "
         ++ r.command ++ "\n", tr, 1⟩ := by
  simp [discoveryLoop, hdl, ho, herr, hcmd, hpre]

/-- C4 witness: a concrete loop state in which the oracle pivots from
`git` to `kubectl`. -/
theorem C4_witness :
    discoveryLoop "git" (fun _ _ => Except.ok ⟨"kubectl get", true, ""⟩) noDeadline
        envOut 10 0 [] "" [] =
      ⟨"\n## Invalid command (must start with git): kubectl get\n", [], 1⟩ :=
  C4_protocolViolation "git" (fun _ _ => Except.ok ⟨"kubectl get", true, ""⟩) noDeadline
    envOut 9 0 [] "" [] ⟨"kubectl get", true, ""⟩ rfl rfl rfl (by decide) (by decide)

/-- C5: when the spawned process hits the 30-second deadline, `Execute`
returns a timeout outcome carrying the combined output captured before
termination; a non-timeout failure returns the captured output with the
wrapped execution error; and the two outcomes are distinct. -/
theorem C5_timeoutDistinct (t : ShellTool) (oracle : Oracle) (deadl : DeadlineState)
    (env : ExecEnv) (args : List (String × ArgVal)) (cmd : String)
    (hargs : args.lookup "command" = some (ArgVal.str cmd))
    (hval : validateCommand t cmd = Except.ok ())
    (hnd : (runToolDiscoveryIfNeeded t oracle deadl env cmd).isExternal = false) :
    ((env cmd).deadlineExceeded = true →
       (shellExecute t oracle deadl env args).1
         = ExecOutcome.timedOut (combineOutput (env cmd).stdout (env cmd).stderr)) ∧
    ((env cmd).deadlineExceeded = false → (env cmd).runErr = true →
       (shellExecute t oracle deadl env args).1
         = ExecOutcome.execFailed (combineOutput (env cmd).stdout (env cmd).stderr)) ∧
    (∀ o o' : String, ExecOutcome.timedOut o ≠ ExecOutcome.execFailed o') := by
  rw [shellExecute_validated t oracle deadl env args cmd hargs hval]
  refine ⟨?_, ?_, ?_⟩
  · intro hdl
    simp [shellExecuteValidated, hnd, hdl]
  · intro hdl hre
    simp [shellExecuteValidated, hnd, hdl, hre]
  · intro o o' h
    exact ExecOutcome.noConfusion h

/-- C5 witness: a well-known command whose process times out with partial
output captured. -/
theorem C5_witness :
    (shellExecute toolLs noOracle noDeadline envTimedOut
        [("command", ArgVal.str "ls")]).1 = ExecOutcome.timedOut "partial out" :=
  (C5_timeoutDistinct toolLs noOracle noDeadline envTimedOut
      [("command", ArgVal.str "ls")] "ls" rfl rfl rfl).1 rfl

/-- The combination formula exactly as the spec's words state it: the
captured stdout, then (if stderr is non-empty) a newline, then the captured
stderr.  Compared against the source's `combineOutput` below. -/
def specCombinedOutput (stdout stderr : String) : String :=
  stdout ++ (if stderr ≠ "" then "\n" else "") ++ stderr

theorem strAppend_empty (a : String) : a ++ "" = a :=
  strExt (by rw [dataAppend]; exact List.append_nil _)

theorem strEmpty_append (a : String) : "" ++ a = a :=
  strExt (by rw [dataAppend]; exact List.nil_append _)

/-- C6 counterexample: when stdout is empty and stderr is `"E"`, the
executor returns `"E"`, while the spec's formula — stdout, then (stderr
non-empty) a newline, then stderr — yields `"\nE"`. -/
theorem C6_counterexample :
    (shellExecute toolLs noOracle noDeadline envErrOnly
        [("command", ArgVal.str "ls")]).1 = ExecOutcome.success "E" ∧
    specCombinedOutput "" "E" = "\nE" ∧
    ("E" : String) ≠ "\nE" :=
  ⟨rfl, rfl, by decide⟩

/-- C6 amended: the combined output is stdout, then a newline separator
only when BOTH stdout and stderr are non-empty, then stderr. -/
theorem C6_amended (a b : String) :
    combineOutput a b = a ++ (if a ≠ "" ∧ b ≠ "" then "\n" else "") ++ b := by
  unfold combineOutput
  by_cases hb : b = ""
  · subst hb
    have h0 : ("" : String).length = 0 := rfl
    rw [h0]
    simp [strAppend_empty]
  · have hbl : 0 < b.length := str_pos_of_ne hb
    rw [if_pos hbl]
    by_cases ha : a = ""
    · subst ha
      simp [hb, strEmpty_append]
    · simp [ha, hb]

/-- C8: `SchemaCache.Get` returns not-found when the cache file is absent,
unparseable, or expired past the 7-day TTL (the expired entry remains
stored, it is not deleted), and returns the record just written by `Set` —
with matching command and helpText and `generatedAt` stamped to the write
time. -/
theorem C8_schemaCacheGet (fs : CacheFS) (now : Int) (cmd : String) (s : CachedSchema) :
    (List.lookup (cacheFileName cmd) fs = none → cacheGet fs now cmd = none) ∧
    (List.lookup (cacheFileName cmd) fs = some CacheFile.unparseable →
       cacheGet fs now cmd = none) ∧
    (∀ r : CachedSchema, List.lookup (cacheFileName cmd) fs = some (CacheFile.valid r) →
       now - r.generatedAt > cacheTTLSeconds →
       cacheGet fs now cmd = none ∧ List.lookup (cacheFileName cmd) fs ≠ none) ∧
    (cacheGet (cacheSet fs now s) now s.command = some { s with generatedAt := now } ∧
     ({ s with generatedAt := now } : CachedSchema).command = s.command ∧
     ({ s with generatedAt := now } : CachedSchema).helpText = s.helpText) := by
  refine ⟨?_, ?_, ?_, ?_, rfl, rfl⟩
  · intro h
    simp [cacheGet, h]
  · intro h
    simp [cacheGet, h]
  · intro r h hexp
    refine ⟨?_, ?_⟩
    · simp [cacheGet, h, hexp]
    · rw [h]
      simp
  · simp [cacheGet, cacheSet, List.lookup, cacheTTLSeconds]

/-- C8 witness: absent file, an entry generated 8 days before `now`
(8 * 86400 = 691200 seconds), and a fresh get-after-set, each at concrete
inputs. -/
theorem C8_witness :
    cacheGet [] 0 "x" = none ∧
    cacheGet [("expired-cmd.json", CacheFile.valid ⟨"expired-cmd", "", "", 0⟩)]
      691200 "expired-cmd" = none ∧
    cacheGet (cacheSet [] 5 ⟨"test-cmd", "sch", "Test help text", 0⟩) 5 "test-cmd"
      = some ⟨"test-cmd", "sch", "Test help text", 5⟩ :=
  ⟨(C8_schemaCacheGet [] 0 "x" ⟨"", "", "", 0⟩).1 rfl,
   ((C8_schemaCacheGet [("expired-cmd.json", CacheFile.valid ⟨"expired-cmd", "", "", 0⟩)]
       691200 "expired-cmd" ⟨"", "", "", 0⟩).2.2.1 ⟨"expired-cmd", "", "", 0⟩ rfl
       (by decide)).1,
   (C8_schemaCacheGet [] 5 "unused" ⟨"test-cmd", "sch", "Test help text", 0⟩).2.2.2.1⟩

theorem sanitizeChar_idem (c : Char) : sanitizeChar (sanitizeChar c) = sanitizeChar c := by
  by_cases h : isAllowedFilenameChar c = true
  · simp [sanitizeChar, h]
  · have h2 : sanitizeChar c = '_' := by simp [sanitizeChar, h]
    rw [h2]
    decide

theorem map_sanitizeChar_id {l : List Char} (h : ∀ c ∈ l, isAllowedFilenameChar c = true) :
    l.map sanitizeChar = l := by
  induction l with
  | nil => rfl
  | cons a as ih =>
    have ha := h a (List.mem_cons_self a as)
    simp only [List.map_cons, sanitizeChar, ha, if_true]
    rw [ih (fun c hc => h c (List.mem_cons_of_mem a hc))]

theorem map_sanitizeChar_idem (l : List Char) :
    (l.map sanitizeChar).map sanitizeChar = l.map sanitizeChar := by
  induction l with
  | nil => rfl
  | cons a as ih => simp only [List.map_cons, sanitizeChar_idem, ih]

/-- C9: `sanitizeFilename` keeps every character of `[A-Za-z0-9_-]` and maps
every other character to `_`; it is the identity on strings made of that
class (e.g. `MixedCase123`), maps `with/slash` to `with_slash` and
`with space` to `with_space`, and is idempotent. -/
theorem C9_sanitizeFilename :
    (∀ c : Char, isAllowedFilenameChar c = true → sanitizeChar c = c) ∧
    (∀ c : Char, isAllowedFilenameChar c = false → sanitizeChar c = '_') ∧
    (∀ s : String, (∀ c ∈ s.data, isAllowedFilenameChar c = true) →
       sanitizeFilename s = s) ∧
    sanitizeFilename "MixedCase123" = "MixedCase123" ∧
    sanitizeFilename "with/slash" = "with_slash" ∧
    sanitizeFilename "with space" = "with_space" ∧
    (∀ s : String, sanitizeFilename (sanitizeFilename s) = sanitizeFilename s) := by
  refine ⟨?_, ?_, ?_, rfl, rfl, rfl, ?_⟩
  · intro c h
    simp [sanitizeChar, h]
  · intro c h
    simp [sanitizeChar, h]
  · intro s h
    exact strExt (map_sanitizeChar_id h)
  · intro s
    exact strExt (map_sanitizeChar_idem s.data)

/-- C9 witness: the identity part applied at `abc-DEF_123`, the char-level
parts at `'q'` and `'/'`, and idempotence at `a/b`. -/
theorem C9_witness :
    sanitizeFilename "abc-DEF_123" = "abc-DEF_123" ∧
    sanitizeChar 'q' = 'q' ∧
    sanitizeChar '/' = '_' ∧
    sanitizeFilename (sanitizeFilename "a/b") = sanitizeFilename "a/b" :=
  ⟨C9_sanitizeFilename.2.2.1 "abc-DEF_123" (by decide),
   C9_sanitizeFilename.1 'q' (by decide),
   C9_sanitizeFilename.2.1 '/' (by decide),
   C9_sanitizeFilename.2.2.2.2.2.2 "a/b"⟩

/-- C7 counterexample: with five short transcript entries
`OUTA … OUTE` (newest last), the prompt built by `askNextDiscoveryStep`
keeps `OUTA` (the oldest) verbatim, drops the most recent entry `OUTE`,
and summarizes it as a count — the opposite of "most recent entries kept
verbatim, older entries beyond the 4th replaced by a summary count". -/
theorem C7_counterexample :
    containsSubstr (discoveryUserMessage "req" ["OUTA", "OUTB", "OUTC", "OUTD", "OUTE"])
      "OUTA" = true ∧
    containsSubstr (discoveryUserMessage "req" ["OUTA", "OUTB", "OUTC", "OUTD", "OUTE"])
      "OUTE" = false ∧
    containsSubstr (discoveryUserMessage "req" ["OUTA", "OUTB", "OUTC", "OUTD", "OUTE"])
      "... and 1 more previous outputs" = true :=
  ⟨by decide, by decide, by decide⟩

/-- C7 amended: the prompt keeps the OLDEST four transcript entries
verbatim (each truncated to at most ~1500 characters), and the entries
after the fourth — the most recent ones — are replaced by a summary
count. -/
theorem C7_amended (ur a b c d : String) (rest : List String) (hne : rest ≠ []) :
    containsSubstr (discoveryUserMessage ur (a :: b :: c :: d :: rest))
      (truncateHelp a) = true ∧
    containsSubstr (discoveryUserMessage ur (a :: b :: c :: d :: rest))
      (truncateHelp b) = true ∧
    containsSubstr (discoveryUserMessage ur (a :: b :: c :: d :: rest))
      (truncateHelp c) = true ∧
    containsSubstr (discoveryUserMessage ur (a :: b :: c :: d :: rest))
      (truncateHelp d) = true ∧
    containsSubstr (discoveryUserMessage ur (a :: b :: c :: d :: rest))
      ("\n... and " ++ toString rest.length ++ " more previous outputs\n") = true := by
  obtain ⟨e, rest', rfl⟩ := List.exists_cons_of_ne_nil hne
  have hmsg : discoveryUserMessage ur (a :: b :: c :: d :: e :: rest') =
      (((("User request: " ++ ur) ++ "\n\n") ++ "Previous discovery steps:\n")
        ++ ((((("\n--- Step " ++ toString (0 + 1)) ++ " ---\n") ++ truncateHelp a) ++ "\n")
          ++ ((((("\n--- Step " ++ toString (1 + 1)) ++ " ---\n") ++ truncateHelp b) ++ "\n")
            ++ ((((("\n--- Step " ++ toString (2 + 1)) ++ " ---\n") ++ truncateHelp c) ++ "\n")
              ++ ((((("\n--- Step " ++ toString (3 + 1)) ++ " ---\n") ++ truncateHelp d) ++ "\n")
                ++ (("\n... and " ++ toString (rest'.length + 1))
                     ++ " more previous outputs\n"))))))
      ++ "\nWhat command should I run next? Remember to output ONLY JSON." := rfl
  refine ⟨?_, ?_, ?_, ?_, ?_⟩ <;> rw [hmsg]
  · exact containsSubstr_append_left (containsSubstr_append_right
      (containsSubstr_append_left (containsSubstr_of_eq rfl) _) _) _
  · exact containsSubstr_append_left (containsSubstr_append_right
      (containsSubstr_append_right
        (containsSubstr_append_left (containsSubstr_of_eq rfl) _) _) _) _
  · exact containsSubstr_append_left (containsSubstr_append_right
      (containsSubstr_append_right (containsSubstr_append_right
        (containsSubstr_append_left (containsSubstr_of_eq rfl) _) _) _) _) _
  · exact containsSubstr_append_left (containsSubstr_append_right
      (containsSubstr_append_right (containsSubstr_append_right
        (containsSubstr_append_right
          (containsSubstr_append_left (containsSubstr_of_eq rfl) _) _) _) _) _) _
  · simp only [List.length_cons]
    exact containsSubstr_append_left (containsSubstr_append_right
      (containsSubstr_append_right (containsSubstr_append_right
        (containsSubstr_append_right (containsSubstr_append_right
          (containsSubstr_self _) _) _) _) _) _) _

/-- C7 witness: the amended theorem applied with four short entries and one
more recent entry. -/
theorem C7_witness :
    containsSubstr (discoveryUserMessage "u" ["A1", "B1", "C1", "D1", "E1"]) "A1" = true ∧
    containsSubstr (discoveryUserMessage "u" ["A1", "B1", "C1", "D1", "E1"])
      ("\n... and " ++ toString (["E1"] : List String).length
        ++ " more previous outputs\n") = true :=
  ⟨(C7_amended "u" "A1" "B1" "C1" "D1" ["E1"] (by decide)).1,
   (C7_amended "u" "A1" "B1" "C1" "D1" ["E1"] (by decide)).2.2.2.2⟩

set_option maxRecDepth 8192

/-- C1 counterexample: the oracle proposes `jq . | cat`, which starts with
the base command `jq` and is therefore spawned as a discovery step, yet it
does not pass the validator (it contains the disallowed pattern `|`): a
child process is spawned whose command never passed `validateCommand`. -/
theorem C1_counterexample :
    (shellExecute tJq oracleJq noDeadline envOut
        [("command", ArgVal.str "jq --version")]).2 = [("jq . | cat", true)] ∧
    validateCommand tJq "jq . | cat"
      = Except.error "command contains disallowed pattern: |" :=
  ⟨rfl, rfl⟩

/-- C1 amended: every child process spawned by `Execute` is either the
validated original command itself (the non-discovery spawn), or a
discovery-flagged spawn whose command starts — as a character-wise string
prefix only — with the access command of some configured shell-type
external tool; discovery-step commands are NOT re-validated. -/
theorem C1_amendedTrace (t : ShellTool) (oracle : Oracle) (deadl : DeadlineState)
    (env : ExecEnv) (args : List (String × ArgVal)) (cmd : String)
    (hargs : args.lookup "command" = some (ArgVal.str cmd)) :
    ∀ p ∈ (shellExecute t oracle deadl env args).2,
      (p.2 = false → p.1 = cmd ∧ validateCommand t cmd = Except.ok ()) ∧
      (p.2 = true → ∃ ext, ext ∈ t.externalTools ∧ ext.accessType = "shell"
        ∧ goStartsWith p.1 ext.accessCommand = true) := by
  intro p hp
  unfold shellExecute at hp
  rw [hargs] at hp
  dsimp only at hp
  cases hv : validateCommand t cmd with
  | error e =>
    rw [hv] at hp
    simp at hp
  | ok u =>
    cases u
    rw [hv] at hp
    replace hp : p ∈ (shellExecuteValidated t oracle deadl env cmd).2 := hp
    unfold shellExecuteValidated at hp
    dsimp only at hp
    split at hp
    · have h := runToolDiscoveryIfNeeded_trace t oracle deadl env cmd p hp
      exact ⟨fun hF => absurd (hF ▸ h.1) (by decide), fun _ => h.2⟩
    · have hp' : p ∈ (runToolDiscoveryIfNeeded t oracle deadl env cmd).trace
          ++ [(cmd, false)] := by
        split at hp
        · exact hp
        · split at hp
          · exact hp
          · exact hp
      rcases List.mem_append.mp hp' with h | h
      · have hh := runToolDiscoveryIfNeeded_trace t oracle deadl env cmd p h
        exact ⟨fun hF => absurd (hF ▸ hh.1) (by decide), fun _ => hh.2⟩
      · rw [List.mem_singleton] at h
        subst h
        exact ⟨fun _ => ⟨rfl, rfl⟩, fun hT => Bool.noConfusion hT⟩

/-- C1 witness: the amended theorem applied to the non-discovery spawn of
the well-known command `ls`, recovering that it passed the validator. -/
theorem C1_witness :
    validateCommand toolLs "ls" = Except.ok () :=
  ((C1_amendedTrace toolLs noOracle noDeadline envOut
      [("command", ArgVal.str "ls")] "ls" rfl ("ls", false) (by decide)).1 rfl).2

/-- C2: when `Execute` is called with a validated command whose base command
is a configured shell-type external tool and not well-known, it returns the
discovery transcript followed by the explicit do-not-re-run instruction,
and every process spawned during the call is a discovery spawn — the
originally requested command is never executed as the requested execution.
`shellExecute` is a pure function of an unchanged `ShellTool` (the Go
method mutates no state), so a second identical invocation satisfies the
same equations and re-runs discovery again. -/
theorem C2_firstUseDiscovery (t : ShellTool) (oracle : Oracle) (deadl : DeadlineState)
    (env : ExecEnv) (args : List (String × ArgVal)) (cmd b : String) (bs : List String)
    (ext : ExternalTool)
    (hargs : args.lookup "command" = some (ArgVal.str cmd))
    (hval : validateCommand t cmd = Except.ok ())
    (hfields : goFields cmd = b :: bs)
    (hwk : wellKnownCommands.contains b = false)
    (hfind : t.externalTools.find?
        (fun x => x.accessType == "shell" && x.accessCommand == b) = some ext) :
    (shellExecute t oracle deadl env args).1
      = ExecOutcome.discovery ((runExternalToolDiscovery t oracle deadl env ext).text
          ++ discoveryInstruction) ∧
    containsSubstr ((runExternalToolDiscovery t oracle deadl env ext).text
        ++ discoveryInstruction) "Do NOT re-run the same command" = true ∧
    (shellExecute t oracle deadl env args).2
      = (runExternalToolDiscovery t oracle deadl env ext).trace ∧
    (∀ p ∈ (shellExecute t oracle deadl env args).2, p.2 = true) := by
  have hrd : runToolDiscoveryIfNeeded t oracle deadl env cmd =
      ⟨(runExternalToolDiscovery t oracle deadl env ext).text, true,
       (runExternalToolDiscovery t oracle deadl env ext).trace,
       (runExternalToolDiscovery t oracle deadl env ext).oracleCalls⟩ := by
    unfold runToolDiscoveryIfNeeded
    rw [hfields]
    dsimp only
    rw [hwk, if_neg (by decide : ¬(false = true))]
    rw [hfind]
  have hx := shellExecute_validated t oracle deadl env args cmd hargs hval
  have hne := runExternalToolDiscovery_text_ne t oracle deadl env ext
  have hmain : shellExecuteValidated t oracle deadl env cmd =
      (ExecOutcome.discovery ((runExternalToolDiscovery t oracle deadl env ext).text
         ++ discoveryInstruction),
       (runExternalToolDiscovery t oracle deadl env ext).trace) := by
    unfold shellExecuteValidated
    rw [hrd]
    dsimp only
    rw [if_pos ⟨rfl, hne⟩]
  refine ⟨?_, ?_, ?_, ?_⟩
  · rw [hx, hmain]
  · exact containsSubstr_append_right (by decide) _
  · rw [hx, hmain]
  · intro p hp
    rw [hx, hmain] at hp
    exact (runExternalToolDiscovery_trace t oracle deadl env ext p hp).1

/-- C2 witness: first use of the configured external tool `jq` with an
oracle and a request in place short-circuits into discovery output. -/
theorem C2_witness :
    (shellExecute tJq oracleJq noDeadline envOut
        [("command", ArgVal.str "jq --version")]).1
      = ExecOutcome.discovery ((runExternalToolDiscovery tJq oracleJq noDeadline
          envOut jqExt).text ++ discoveryInstruction) :=
  (C2_firstUseDiscovery tJq oracleJq noDeadline envOut
    [("command", ArgVal.str "jq --version")] "jq --version" "jq" ["--version"] jqExt
    rfl rfl rfl rfl rfl).1

/-- C10: the discovery loop's prefix constraint is a character-wise
string-prefix test, not a token test: with base command `git`, the
oracle-proposed `gitk --help` (whose first token is `gitk`, not `git`)
passes the check and is executed as a discovery step. -/
theorem C10_prefixIsStringwise :
    (runExternalToolDiscovery tGit oracleGitk noDeadline envOut gitExt).trace
      = [("gitk --help", true)] ∧
    goStartsWith "gitk --help" "git" = true ∧
    (goFields "gitk --help").head? = some "gitk" ∧
    "gitk" ≠ "git" :=
  ⟨rfl, rfl, rfl, by decide⟩

end Crabby
